import Mathlib

/-!
Shallow embedding of the Hexagony interpreter (rytheo/hexagony) for
specification checking.

Sources embedded:
  - src/coords.rs     : axial coordinate pairs with componentwise add/sub
  - src/direction.rs  : directions, redirects, the 36-case redirect table
  - src/memory.rs     : the hexagonal edge memory with its left/right tables
  - src/grid.rs       : the source grid (construction, parsing, rendering)
  - src/lib.rs        : the interpreter state, dispatch loop, IP advancing

Modelling conventions:
  - Rust `isize` values are modelled as `Int`; `usize` as `Nat` (all the
    `usize` arithmetic in the source is on small non-negative quantities and
    is reproduced with `Nat` operations, truncated subtraction included,
    exactly where the source subtracts).
  - `rug::Integer` (arbitrary-precision) is `Int`.  rug's `/` operator and
    `div_rem` truncate the quotient toward zero (GMP `tdiv`), hence
    `Int.tdiv` / `Int.tmod` below; rug's `mod_u` returns the non-negative
    remainder, hence `Int.emod` with a positive modulus.
  - The memory `HashMap<Index, Integer>` with default 0 is modelled as a
    total function `Index → Int` (lookups of absent keys yield 0 in both).
  - Standard input is a pure byte list; standard output a byte list.
    The diagnostic (stderr) channel is abstracted to a count of emitted
    debug blocks (`errOut`): the claims only concern when a block is
    emitted, never its text.
  - Rust panics (`unreachable!`, out-of-bounds indexing) are modelled as
    `Option.none` / a dedicated error constructor, so that the embedding
    can express that they are not reached.
-/

/-! ## Coordinates (src/coords.rs) -/

/-- Axial coordinate pair `PointAxial(q, r)`; componentwise `+`/`-` come
from the `Prod` instances, matching the `Add`/`Sub` impls in coords.rs. -/
abbrev PointAxial := Int × Int

/-! ## Directions and redirects (src/direction.rs) -/

/-- Subset of instructions that change the direction of the current IP. -/
inductive Redirect where
  | MirrorHori
  | MirrorVert
  | MirrorForw
  | MirrorBack
  | BranchLeft
  | BranchRight
deriving DecidableEq

/-- Possible directions of travel for each IP. -/
inductive Direction where
  | NorthEast
  | NorthWest
  | West
  | SouthWest
  | SouthEast
  | East
deriving DecidableEq

/-- One grid space of movement in a given direction (direction.rs `to_vector`). -/
def Direction.to_vector : Direction → PointAxial
  | .NorthEast => (1, -1)
  | .NorthWest => (0, -1)
  | .West => (-1, 0)
  | .SouthWest => (-1, 1)
  | .SouthEast => (0, 1)
  | .East => (1, 0)

/-- The reflected direction, from the 36-case table in direction.rs. -/
def redirect (dir : Direction) (redir : Redirect) (positive : Bool) : Direction :=
  match dir, redir with
  | .NorthEast, .MirrorHori => .SouthEast
  | .NorthEast, .MirrorVert => .NorthWest
  | .NorthEast, .MirrorForw => .NorthEast
  | .NorthEast, .MirrorBack => .West
  | .NorthEast, .BranchLeft => .SouthWest
  | .NorthEast, .BranchRight => .East
  | .NorthWest, .MirrorHori => .SouthWest
  | .NorthWest, .MirrorVert => .NorthEast
  | .NorthWest, .MirrorForw => .East
  | .NorthWest, .MirrorBack => .NorthWest
  | .NorthWest, .BranchLeft => .West
  | .NorthWest, .BranchRight => .SouthEast
  | .West, .MirrorHori => .West
  | .West, .MirrorVert => .East
  | .West, .MirrorForw => .SouthEast
  | .West, .MirrorBack => .NorthEast
  | .West, .BranchLeft => .East
  | .West, .BranchRight => if positive then .NorthWest else .SouthWest
  | .SouthWest, .MirrorHori => .NorthWest
  | .SouthWest, .MirrorVert => .SouthEast
  | .SouthWest, .MirrorForw => .SouthWest
  | .SouthWest, .MirrorBack => .East
  | .SouthWest, .BranchLeft => .West
  | .SouthWest, .BranchRight => .NorthEast
  | .SouthEast, .MirrorHori => .NorthEast
  | .SouthEast, .MirrorVert => .SouthWest
  | .SouthEast, .MirrorForw => .West
  | .SouthEast, .MirrorBack => .SouthEast
  | .SouthEast, .BranchLeft => .NorthWest
  | .SouthEast, .BranchRight => .East
  | .East, .MirrorHori => .East
  | .East, .MirrorVert => .West
  | .East, .MirrorForw => .NorthWest
  | .East, .MirrorBack => .SouthWest
  | .East, .BranchLeft => if positive then .SouthEast else .NorthEast
  | .East, .BranchRight => .West

/-! ## Memory (src/memory.rs) -/

/-- One of three edges of the hex used for indexing (memory.rs `Dir`). -/
inductive MemDir where
  | NE
  | E
  | SE
deriving DecidableEq

/-- Orientation of a memory pointer relative to its hex (memory.rs `Rot`). -/
inductive Rot where
  | CW
  | CCW
deriving DecidableEq

/-- Tuple of values used as the index of a memory edge. -/
abbrev MemIndex := Int × Int × MemDir

/-- The memory: a map from edge indices to integers (default 0), the memory
pointer `mp`, and the chirality `rot`.  The sparse `HashMap` of the source
is modelled as a total function (absent keys read as 0 in both). -/
structure Memory where
  cells : MemIndex → Int
  mp : MemIndex
  rot : Rot

/-- `Memory::new()`: all cells 0, `mp = (0, 0, E)`, `rot = CCW`. -/
def Memory.new : Memory :=
  { cells := fun _ => 0, mp := (0, 0, .E), rot := .CCW }

/-- Index (and new chirality) of the left neighbour edge (memory.rs `left_index`). -/
def Memory.left_index (m : Memory) : MemIndex × Rot :=
  match m.mp, m.rot with
  | (q, r, .NE), .CCW => ((q, r - 1, .SE), .CW)
  | (q, r, .NE), .CW => ((q + 1, r - 1, .SE), .CCW)
  | (q, r, .E), .CCW => ((q, r, .NE), .CCW)
  | (q, r, .E), .CW => ((q, r + 1, .NE), .CW)
  | (q, r, .SE), .CCW => ((q, r, .E), .CCW)
  | (q, r, .SE), .CW => ((q - 1, r + 1, .E), .CW)

/-- Index (and new chirality) of the right neighbour edge (memory.rs `right_index`). -/
def Memory.right_index (m : Memory) : MemIndex × Rot :=
  match m.mp, m.rot with
  | (q, r, .NE), .CCW => ((q, r - 1, .E), .CCW)
  | (q, r, .NE), .CW => ((q, r, .E), .CW)
  | (q, r, .E), .CCW => ((q + 1, r - 1, .SE), .CCW)
  | (q, r, .E), .CW => ((q, r, .SE), .CW)
  | (q, r, .SE), .CCW => ((q, r + 1, .NE), .CW)
  | (q, r, .SE), .CW => ((q - 1, r + 1, .NE), .CCW)

/-- Value in the left neighbour (memory.rs `get_left`). -/
def Memory.get_left (m : Memory) : Int := m.cells m.left_index.1

/-- Value in the right neighbour (memory.rs `get_right`). -/
def Memory.get_right (m : Memory) : Int := m.cells m.right_index.1

/-- Value in the current memory edge (memory.rs `get`). -/
def Memory.get (m : Memory) : Int := m.cells m.mp

/-- Set the current memory edge (memory.rs `set`). -/
def Memory.set (m : Memory) (value : Int) : Memory :=
  { m with cells := fun i => if i = m.mp then value else m.cells i }

/-- Move the MP to the left neighbour (memory.rs `move_left`). -/
def Memory.move_left (m : Memory) : Memory :=
  { m with mp := m.left_index.1, rot := m.left_index.2 }

/-- Move the MP to the right neighbour (memory.rs `move_right`). -/
def Memory.move_right (m : Memory) : Memory :=
  { m with mp := m.right_index.1, rot := m.right_index.2 }

/-- Reverse the direction of the MP (memory.rs `reverse`). -/
def Memory.reverse (m : Memory) : Memory :=
  { m with rot := match m.rot with | .CW => .CCW | .CCW => .CW }

/-- The `MPBackLeft` macro of lib.rs: reverse, move right, reverse. -/
def Memory.mp_back_left (m : Memory) : Memory :=
  m.reverse.move_right.reverse

/-- The `MPBackRight` macro of lib.rs: reverse, move left, reverse. -/
def Memory.mp_back_right (m : Memory) : Memory :=
  m.reverse.move_left.reverse

/-! ## Arithmetic of Divide and Modulo (lib.rs, Op::Divide / Op::Modulo arms) -/

/-- What `Op::Divide` stores when `right ≠ 0`: rug's `/`, which truncates the
quotient toward zero (GMP `tdiv`). -/
def divideVal (left right : Int) : Int := left.tdiv right

/-- What `Op::Modulo` stores when `right ≠ 0`: the truncated remainder from
`div_rem`, shifted by `right` when it is non-zero and the operands' signs
differ. -/
def moduloVal (left right : Int) : Int :=
  let rem := left.tmod right
  if rem ≠ 0 ∧ decide (left < 0) ≠ decide (right < 0) then rem + right else rem

/-! ## The instruction set and the source grid (src/grid.rs) -/

/-- Enumeration of all commands (grid.rs `Op`).  `Letter` carries the ASCII
code of the letter, `Digit` the digit value 0–9, as in the source. -/
inductive Op where
  | Nop
  | Terminate
  | Letter (b : Nat)
  | Digit (d : Nat)
  | Increment
  | Decrement
  | Add
  | Subtract
  | Multiply
  | Divide
  | Modulo
  | Negate
  | ReadByte
  | ReadInt
  | WriteByte
  | WriteInt
  | Jump
  | Redir (redir : Redirect)
  | IPPrev
  | IPNext
  | IPSelect
  | MPLeft
  | MPRight
  | MPBackLeft
  | MPBackRight
  | MPReverse
  | MPBranch
  | MemCopy
deriving DecidableEq

/-- A pointy-topped hexagonal grid of instructions (grid.rs `Grid`). -/
structure Grid where
  size : Nat
  grid : List (List (Op × Bool))
deriving DecidableEq

/-- `Grid::new(size)`: the empty hex-shaped grid.  Row `i` of the `2*size-1`
rows has length `2*size-1 - b` where `b = |size-1 - i|`, all cells
`(Nop, false)`.  (Subtraction is `usize` subtraction, as in the source;
`Grid::new` is only ever called with `size ≥ 1`.) -/
def Grid.new (size : Nat) : Grid :=
  let diameter := 2 * size - 1
  let s := size - 1
  { size := size
    grid := (List.range diameter).map fun i =>
      let b := if s > i then s - i else i - s
      List.replicate (diameter - b) (Op.Nop, false) }

/-- `Grid::axial_to_index`: axial `(q, r)` to the internal 2D index, as
signed arithmetic (`row = r + size - 1`, `col = q + min(row, size - 1)`).
The source then casts both to `usize`. -/
def Grid.axial_to_index (g : Grid) (coords : PointAxial) : Int × Int :=
  let row : Int := coords.2 + (g.size : Int) - 1
  (row, coords.1 + min row ((g.size : Int) - 1))

/-- `Grid::get`: fetch the `(Op, debug)` cell at axial coordinates.  The
source indexes the backing vectors directly (panicking out of bounds); the
embedding totalizes with `(Nop, false)` for out-of-range indices — the
in-bounds invariant proved below shows the interpreter never reads there. -/
def Grid.get (g : Grid) (coords : PointAxial) : Op × Bool :=
  let rc := g.axial_to_index coords
  (g.grid.getD rc.1.toNat []).getD rc.2.toNat (Op.Nop, false)

/-- The display character of an `Op` (grid.rs `impl fmt::Display for Op`).
Backslash, double quote, apostrophe and backtick are written via
`Char.ofNat` (codes 92, 34, 39, 96) rather than as character literals. -/
def opChar : Op → Char
  | .Nop => '.'
  | .Terminate => '@'
  | .Letter b => Char.ofNat b
  | .Digit d => Char.ofNat (d + 48)
  | .Increment => ')'
  | .Decrement => '('
  | .Add => '+'
  | .Subtract => '-'
  | .Multiply => '*'
  | .Divide => ':'
  | .Modulo => '%'
  | .Negate => '~'
  | .ReadByte => ','
  | .ReadInt => '?'
  | .WriteByte => ';'
  | .WriteInt => '!'
  | .Jump => '$'
  | .Redir .MirrorHori => '_'
  | .Redir .MirrorVert => '|'
  | .Redir .MirrorForw => '/'
  | .Redir .MirrorBack => Char.ofNat 92
  | .Redir .BranchLeft => '<'
  | .Redir .BranchRight => '>'
  | .IPPrev => '['
  | .IPNext => ']'
  | .IPSelect => '#'
  | .MPLeft => '{'
  | .MPRight => '}'
  | .MPBackLeft => Char.ofNat 34
  | .MPBackRight => Char.ofNat 39
  | .MPReverse => '='
  | .MPBranch => '^'
  | .MemCopy => '&'

/-- Rendering of one grid row (`impl fmt::Display for Grid`, loop body):
padding spaces, then each cell as a backtick-or-space followed by the op's
character, then a newline. -/
def renderLine (size : Nat) (line : List (Op × Bool)) : List Char :=
  List.replicate (2 * size - 1 - line.length) ' ' ++
    (line.map fun c => [if c.2 then Char.ofNat 96 else ' ', opChar c.1]).flatten ++
    [Char.ofNat 10]

/-- `Grid`'s `Display` output as a character list. -/
def renderGrid (g : Grid) : List Char :=
  (g.grid.map (renderLine g.size)).flatten

/-- `source_template` (lib.rs): the empty template for a side length, with
the explicit empty output for size 0. -/
def source_template (size : Nat) : List Char :=
  match size with
  | 0 => []
  | _ => renderGrid (Grid.new size)

/-- Error type of the crate (lib.rs `Error`); `IOError` payload dropped. -/
inductive Error where
  | SyntaxError (c : Char)
  | IOError
  | ZeroDivisionError
deriving DecidableEq

/-- A parse outcome: either a crate `Error` or a panic from indexing the
grid vectors out of bounds (`grid.grid[row][col]` in `from_str`). -/
inductive ParseError where
  | err (e : Error)
  | outOfBounds
deriving DecidableEq

/-- Rust `char::is_whitespace`: the Unicode `White_Space` property. -/
def isRustWhitespace (c : Char) : Bool :=
  c.toNat = 9 ∨ c.toNat = 10 ∨ c.toNat = 11 ∨ c.toNat = 12 ∨ c.toNat = 13 ∨
  c.toNat = 32 ∨ c.toNat = 133 ∨ c.toNat = 160 ∨ c.toNat = 5760 ∨
  (8192 ≤ c.toNat ∧ c.toNat ≤ 8202) ∨ c.toNat = 8232 ∨ c.toNat = 8233 ∨
  c.toNat = 8239 ∨ c.toNat = 8287 ∨ c.toNat = 12288

/-- Is this character counted by the parser's size computation (neither
whitespace nor a backtick)? -/
def isOpChar (c : Char) : Bool :=
  !isRustWhitespace c && c ≠ Char.ofNat 96

/-- `from_str`'s `src_size`: the count of non-whitespace, non-backtick
characters. -/
def srcSize (s : List Char) : Nat := (s.filter isOpChar).length

/-- `(1..).find(|n| 3 * n * (n - 1) + 1 >= src_size)`: the least positive
`k` with `3k(k-1)+1 ≥ n`. -/
def chooseSize (n : Nat) : Nat :=
  Nat.find (p := fun k => 1 ≤ k ∧ n ≤ 3 * k * (k - 1) + 1)
    ⟨n + 1, Nat.le_add_left 1 n, by rw [Nat.add_sub_cancel]; nlinarith⟩

/-- The instruction table of `from_str` (grid.rs): decode one character,
`none` for the characters that raise `SyntaxError`. -/
def decodeOp (c : Char) : Option Op :=
  if c = '.' then some .Nop
  else if c = '@' then some .Terminate
  else if ('a' ≤ c ∧ c ≤ 'z') ∨ ('A' ≤ c ∧ c ≤ 'Z') then some (.Letter c.toNat)
  else if '0' ≤ c ∧ c ≤ '9' then some (.Digit (c.toNat - 48))
  else if c = ')' then some .Increment
  else if c = '(' then some .Decrement
  else if c = '+' then some .Add
  else if c = '-' then some .Subtract
  else if c = '*' then some .Multiply
  else if c = ':' then some .Divide
  else if c = '%' then some .Modulo
  else if c = '~' then some .Negate
  else if c = ',' then some .ReadByte
  else if c = '?' then some .ReadInt
  else if c = ';' then some .WriteByte
  else if c = '!' then some .WriteInt
  else if c = '$' then some .Jump
  else if c = '_' then some (.Redir .MirrorHori)
  else if c = '|' then some (.Redir .MirrorVert)
  else if c = '/' then some (.Redir .MirrorForw)
  else if c = Char.ofNat 92 then some (.Redir .MirrorBack)
  else if c = '<' then some (.Redir .BranchLeft)
  else if c = '>' then some (.Redir .BranchRight)
  else if c = '[' then some .IPPrev
  else if c = ']' then some .IPNext
  else if c = '#' then some .IPSelect
  else if c = '{' then some .MPLeft
  else if c = '}' then some .MPRight
  else if c = Char.ofNat 34 then some .MPBackLeft
  else if c = Char.ofNat 39 then some .MPBackRight
  else if c = '=' then some .MPReverse
  else if c = '^' then some .MPBranch
  else if c = '&' then some .MemCopy
  else none

/-- Write one cell of the grid; `none` models the panic the source would
take on an out-of-range `grid.grid[row][col]` write. -/
def setCell (g : Grid) (row col : Nat) (v : Op × Bool) : Option Grid :=
  match g.grid[row]? with
  | none => none
  | some line =>
    if col < line.length then
      some { g with grid := g.grid.set row (line.set col v) }
    else none

/-- The character loop of `from_str`: skip whitespace, latch the debug flag
on backtick, decode and write every other character, advancing `(row, col)`
through the rows exactly as the source does. -/
def writeLoop : List Char → Grid → Nat → Nat → Bool → Except ParseError Grid
  | [], g, _, _, _ => .ok g
  | c :: cs, g, row, col, debug =>
    if isRustWhitespace c then writeLoop cs g row col debug
    else if c = Char.ofNat 96 then writeLoop cs g row col true
    else
      match decodeOp c with
      | none => .error (.err (.SyntaxError c))
      | some op =>
        match setCell g row col (op, debug) with
        | none => .error .outOfBounds
        | some g' =>
          if col < (g'.grid.getD row []).length - 1 then
            writeLoop cs g' row (col + 1) false
          else
            writeLoop cs g' (row + 1) 0 false

/-- `Grid::from_str`: choose the side length from the character count and
run the write loop over an empty grid of that side. -/
def from_str (s : List Char) : Except ParseError Grid :=
  writeLoop s (Grid.new (chooseSize (srcSize s))) 0 0 false

/-! ## Instruction pointers and advancing (src/lib.rs) -/

/-- An instruction pointer: grid location and current direction. -/
structure IP where
  coords : PointAxial
  dir : Direction
deriving DecidableEq

/-- `Hexagony::advance_ip`, as a function of the grid size, the sign test
`*self.mem.get() > 0`, and the IP.  `none` models the `unreachable!` panic
arm of the wrap match.  The source moves the coordinates forward and then
subtracts the vector back before wrapping; the net effect (wrap formulas
applied to the pre-move `(q, r)`) is reproduced here. -/
def advance_ip (size : Nat) (positive : Bool) (ip : IP) : Option IP :=
  if size = 1 then some ip
  else
    let c := ip.coords + ip.dir.to_vector
    let x := c.1
    let z := c.2
    let y := -x - z
    let x_big := decide (size ≤ x.natAbs)
    let y_big := decide (size ≤ y.natAbs)
    let z_big := decide (size ≤ z.natAbs)
    if !(x_big || y_big || z_big) then some { ip with coords := c }
    else
      let q := ip.coords.1
      let r := ip.coords.2
      match x_big, y_big, z_big, positive with
      | false, false, false, _ | true, true, true, _ => none
      | false, false, true, _ => some { ip with coords := (q + r, -r) }
      | false, true, false, _ => some { ip with coords := (-r, -q) }
      | true, false, false, _ => some { ip with coords := (-q, q + r) }
      | false, true, true, false | true, false, true, true =>
        some { ip with coords := (q + r, -r) }
      | true, false, true, false | true, true, false, true =>
        some { ip with coords := (-q, q + r) }
      | true, true, false, false | false, true, true, true =>
        some { ip with coords := (-r, -q) }

/-- Modelled from the spec: the §4.5 wrap table, a function of which cube
components are out of range and of the sign of the current memory value,
applied to the pre-move axial coordinates.  `none` for the two rows the
spec calls unreachable. -/
def wrapTableSpec (x_big y_big z_big positive : Bool) (q r : Int) :
    Option PointAxial :=
  match x_big, y_big, z_big, positive with
  | false, false, true, _ => some (q + r, -r)
  | false, true, false, _ => some (-r, -q)
  | true, false, false, _ => some (-q, q + r)
  | false, true, true, false => some (q + r, -r)
  | false, true, true, true => some (-r, -q)
  | true, false, true, false => some (-q, q + r)
  | true, false, true, true => some (q + r, -r)
  | true, true, false, false => some (-r, -q)
  | true, true, false, true => some (-q, q + r)
  | _, _, _, _ => none

/-- In-bounds predicate for a cell address: `max(|x|, |y|, |z|) < s` in
cube coordinates `x = q`, `y = -q - r`, `z = r`. -/
def inBounds (size : Nat) (c : PointAxial) : Prop :=
  c.1.natAbs < size ∧ (-c.1 - c.2).natAbs < size ∧ c.2.natAbs < size

instance (size : Nat) (c : PointAxial) : Decidable (inBounds size c) := by
  unfold inBounds; infer_instance

/-- The six initial IPs of `Hexagony::new`, in order. -/
def initIP (size : Nat) (i : Nat) : IP :=
  let s : Int := size
  match i with
  | 0 => { coords := (0, -s + 1), dir := .East }
  | 1 => { coords := (s - 1, -s + 1), dir := .SouthEast }
  | 2 => { coords := (s - 1, 0), dir := .SouthWest }
  | 3 => { coords := (0, s - 1), dir := .West }
  | 4 => { coords := (-s + 1, s - 1), dir := .NorthWest }
  | _ => { coords := (-s + 1, 0), dir := .NorthEast }

/-- Positions an IP can occupy: one of the six initial corners, or the
result of any `advance_ip` step (any direction, any sign of the current
memory value) from an occupied position.  Every coordinate an IP ever has
during a run of the interpreter loop is of this shape: the dispatch arms
change only directions and which IP is active, and both the in-loop
(`Jump`) and end-of-tick advances go through `advance_ip`. -/
inductive ReachablePos (size : Nat) : PointAxial → Prop where
  | init (i : Nat) : ReachablePos size (initIP size i).coords
  | step (c : PointAxial) (d : Direction) (positive : Bool) (ip' : IP) :
      ReachablePos size c →
      advance_ip size positive { coords := c, dir := d } = some ip' →
      ReachablePos size ip'.coords

/-! ## The interpreter (src/lib.rs) -/

/-- The debug-emission test on line 82 of lib.rs, exactly as written there:
`self.debug_level > 1 && dbg || self.debug_level > 0` (in Rust, `&&` binds
tighter than `||`). -/
def dbg_tick (debug_level : Nat) (dbg : Bool) : Bool :=
  (decide (debug_level > 1) && dbg) || decide (debug_level > 0)

/-- The full interpreter state (struct `Hexagony`).  `input` is the
remaining standard-input bytes; `output` the bytes written to standard
output so far; `errOut` counts the diagnostic blocks emitted to the
debug channel. -/
structure Hexagony where
  grid : Grid
  mem : Memory
  ips : Nat → IP
  ip_idx : Nat
  tick : Nat
  debug_level : Nat
  input : List Nat
  output : List Nat
  errOut : Nat

/-- `Hexagony::new` for an already-parsed grid. -/
def Hexagony.init (g : Grid) (debug_level : Nat) (input : List Nat) : Hexagony :=
  { grid := g
    mem := Memory.new
    ips := initIP g.size
    ip_idx := 0
    tick := 0
    debug_level := debug_level
    input := input
    output := []
    errOut := 0 }

/-- Decimal representation of an integer as output bytes (`print!` on a
`rug::Integer` value). -/
def intBytes (v : Int) : List Nat := (toString v).toList.map Char.toNat

/-- The prefix-discard loop of `Op::ReadInt`: consume bytes until a `+`,
`-` or digit; returns the initial value, the sign, and the rest of the
input. -/
def readIntScan : List Nat → Int × Int × List Nat
  | [] => (0, 1, [])
  | b :: bs =>
    if b = 43 then (0, 1, bs)
    else if b = 45 then (0, -1, bs)
    else if 48 ≤ b ∧ b ≤ 57 then (((b : Int) - 48), 1, bs)
    else readIntScan bs

/-- The digit-peek loop of `Op::ReadInt`: consume leading digits,
accumulating the value. -/
def readDigits : Int → List Nat → Int × List Nat
  | v, b :: bs =>
    if 48 ≤ b ∧ b ≤ 57 then readDigits (v * 10 + ((b : Int) - 48)) bs
    else (v, b :: bs)
  | v, [] => (v, [])

/-- Result of one iteration of the `run` loop: continue, terminate
successfully, return an error, or panic (`unreachable!` in
`advance_ip`). -/
inductive TickRes where
  | cont (s : Hexagony)
  | halt (s : Hexagony)
  | err (e : Error) (s : Hexagony)
  | abort (s : Hexagony)

/-- Advance the active IP of a state (the `self.advance_ip()` calls). -/
def advState (h : Hexagony) : Option Hexagony :=
  (advance_ip h.grid.size (decide (0 < h.mem.get)) (h.ips h.ip_idx)).map
    fun ip' =>
      { h with ips := fun j => if j = h.ip_idx then ip' else h.ips j }

/-- The common tail of a loop iteration: end-of-tick advance, switch the
active IP, increment the tick counter. -/
def finishTick (h : Hexagony) (next_idx : Nat) : TickRes :=
  match advState h with
  | none => .abort h
  | some h' => .cont { h' with ip_idx := next_idx, tick := h'.tick + 1 }

/-- The debug-emission part of a loop iteration (lib.rs lines 82–90): if
the gate fires, a block is printed to the diagnostic channel — counted in
`errOut` — and nothing else changes. -/
def dbgStep (h0 : Hexagony) : Hexagony :=
  if dbg_tick h0.debug_level (h0.grid.get (h0.ips h0.ip_idx).coords).2
  then { h0 with errOut := h0.errOut + 1 } else h0

/-- One iteration of `Hexagony::run`'s loop: fetch, possibly emit a debug
block, dispatch the operation, advance, switch, count the tick. -/
def stepTick (h0 : Hexagony) : TickRes :=
  let fetched := h0.grid.get (h0.ips h0.ip_idx).coords
  let h := dbgStep h0
  match fetched.1 with
  | .Nop => finishTick h h.ip_idx
  | .Terminate => .halt h
  | .Letter b => finishTick { h with mem := h.mem.set b } h.ip_idx
  | .Digit d =>
    finishTick { h with mem := h.mem.set (h.mem.get * 10 + d) } h.ip_idx
  | .Increment => finishTick { h with mem := h.mem.set (h.mem.get + 1) } h.ip_idx
  | .Decrement => finishTick { h with mem := h.mem.set (h.mem.get - 1) } h.ip_idx
  | .Add =>
    finishTick { h with mem := h.mem.set (h.mem.get_left + h.mem.get_right) } h.ip_idx
  | .Subtract =>
    finishTick { h with mem := h.mem.set (h.mem.get_left - h.mem.get_right) } h.ip_idx
  | .Multiply =>
    finishTick { h with mem := h.mem.set (h.mem.get_left * h.mem.get_right) } h.ip_idx
  | .Divide =>
    if h.mem.get_right = 0 then .err .ZeroDivisionError h
    else finishTick { h with mem := h.mem.set (divideVal h.mem.get_left h.mem.get_right) } h.ip_idx
  | .Modulo =>
    if h.mem.get_right = 0 then .err .ZeroDivisionError h
    else finishTick { h with mem := h.mem.set (moduloVal h.mem.get_left h.mem.get_right) } h.ip_idx
  | .Negate => finishTick { h with mem := h.mem.set (h.mem.get * -1) } h.ip_idx
  | .ReadByte =>
    match h.input with
    | b :: rest =>
      finishTick { h with mem := h.mem.set b, input := rest } h.ip_idx
    | [] => finishTick { h with mem := h.mem.set (-1) } h.ip_idx
  | .ReadInt =>
    let scanned := readIntScan h.input
    let digits := readDigits scanned.1 scanned.2.2
    finishTick { h with mem := h.mem.set (digits.1 * scanned.2.1), input := digits.2 } h.ip_idx
  | .WriteByte =>
    finishTick { h with output := h.output ++ [(h.mem.get.emod 256).toNat] } h.ip_idx
  | .WriteInt =>
    finishTick { h with output := h.output ++ intBytes h.mem.get } h.ip_idx
  | .Jump =>
    match advState h with
    | none => .abort h
    | some h' => finishTick h' h'.ip_idx
  | .Redir rd =>
    finishTick
      { h with ips := fun j => if j = h.ip_idx
          then { coords := (h.ips h.ip_idx).coords
                 dir := redirect (h.ips h.ip_idx).dir rd (decide (0 < h.mem.get)) }
          else h.ips j } h.ip_idx
  | .IPPrev => finishTick h ((h.ip_idx + 5) % 6)
  | .IPNext => finishTick h ((h.ip_idx + 1) % 6)
  | .IPSelect => finishTick h (h.mem.get.emod 6).toNat
  | .MPLeft => finishTick { h with mem := h.mem.move_left } h.ip_idx
  | .MPRight => finishTick { h with mem := h.mem.move_right } h.ip_idx
  | .MPBackLeft => finishTick { h with mem := h.mem.mp_back_left } h.ip_idx
  | .MPBackRight => finishTick { h with mem := h.mem.mp_back_right } h.ip_idx
  | .MPReverse => finishTick { h with mem := h.mem.reverse } h.ip_idx
  | .MPBranch =>
    finishTick { h with mem := if 0 < h.mem.get then h.mem.move_right else h.mem.move_left } h.ip_idx
  | .MemCopy =>
    finishTick { h with mem := h.mem.set (if 0 < h.mem.get then h.mem.get_right else h.mem.get_left) } h.ip_idx

/-- Outcome of running the loop with a fuel bound: normal termination,
error, panic, or fuel exhausted.  The carried state holds the output
written so far. -/
inductive RunRes where
  | ok (s : Hexagony)
  | err (e : Error) (s : Hexagony)
  | abort (s : Hexagony)
  | fuel (s : Hexagony)

/-- The `run` loop, bounded by fuel (the loop itself has no bound; every
claim about it quantifies over the fuel). -/
def runFuel : Nat → Hexagony → RunRes
  | 0, s => .fuel s
  | n + 1, s =>
    match stepTick s with
    | .cont s' => runFuel n s'
    | .halt s' => .ok s'
    | .err e s' => .err e s'
    | .abort s' => .abort s'

/-! ## Auxiliary concrete states used by counterexamples and witnesses -/

/-- A memory whose pointer sits on an `SE` edge with `rot = CCW`. -/
def memSE : Memory :=
  { cells := fun _ => 0, mp := (0, 0, .SE), rot := .CCW }

/-- A one-cell program consisting of a single no-op without a debug flag,
run at debug level 1. -/
def dbgDemo : Hexagony :=
  Hexagony.init { size := 1, grid := [[(Op.Nop, false)]] } 1 []

/-- Two interpreter states that agree on everything the program can
observe: only the debug level and the count of emitted diagnostic blocks
may differ. -/
def SameCore (a b : Hexagony) : Prop :=
  a.grid = b.grid ∧ a.mem = b.mem ∧ a.ips = b.ips ∧ a.ip_idx = b.ip_idx ∧
  a.tick = b.tick ∧ a.input = b.input ∧ a.output = b.output

/-- Lifting of `SameCore` to tick results: same constructor, same error
kind, cores agree. -/
def TickRes.Rel : TickRes → TickRes → Prop
  | .cont a, .cont b => SameCore a b
  | .halt a, .halt b => SameCore a b
  | .err e a, .err f b => e = f ∧ SameCore a b
  | .abort a, .abort b => SameCore a b
  | _, _ => False

/-- The observable outcome of a bounded run: how it ended (a tag and the
error kind, if any) and the bytes written to standard output. -/
def RunRes.obs : RunRes → Nat × Option Error × List Nat
  | .ok s => (0, none, s.output)
  | .err e s => (1, some e, s.output)
  | .abort s => (2, none, s.output)
  | .fuel s => (3, none, s.output)

/-- A grid with the shape of the empty grid of side `size`: the same
stored side length and the same row-length profile. -/
def sameShape (g : Grid) (size : Nat) : Prop :=
  g.size = size ∧ g.grid.map List.length = (Grid.new size).grid.map List.length

/-- Total number of cells of a grid. -/
def totalCells (g : Grid) : Nat := (g.grid.map List.length).sum

/-- Number of cells strictly before position `(row, col)` in the row-major
order the parser's write loop follows. -/
def cellsBefore (g : Grid) (row col : Nat) : Nat :=
  ((g.grid.take row).map List.length).sum + col

/-- Every cell of the grid is an undebugged no-op. -/
def allNop (g : Grid) : Prop :=
  ∀ l ∈ g.grid, ∀ p ∈ l, p = (Op.Nop, false)

/-- Invariant of the parser's write loop: the position is either a valid
cell or one-past-the-last-row with column 0, the cells still to be written
(`n`) fit in the remaining room, and no row is empty. -/
def writeInv (g : Grid) (row col n : Nat) : Prop :=
  ((row < g.grid.length ∧ col < (g.grid.getD row []).length) ∨
    (row = g.grid.length ∧ col = 0)) ∧
  cellsBefore g row col + n ≤ totalCells g ∧
  ∀ l ∈ g.grid, l ≠ []

/-! # Theorems -/

/-! ## Helper lemmas on truncated remainders -/

theorem tmod_neg_left (a b : Int) : (-a).tmod b = -(a.tmod b) := by
  rw [Int.tmod_def, Int.tmod_def, Int.neg_tdiv]
  ring

theorem tmod_bounds_pos (l : Int) {r : Int} (h : 0 < r) :
    -r < l.tmod r ∧ l.tmod r < r ∧ (0 ≤ l → 0 ≤ l.tmod r) ∧ (l < 0 → l.tmod r ≤ 0) := by
  rcases le_or_lt 0 l with hl | hl
  · have h1 := Int.tmod_nonneg r hl
    have h2 := Int.tmod_lt_of_pos l h
    omega
  · have hrewrite : l.tmod r = -((-l).tmod r) := by
      rw [tmod_neg_left]
      ring_nf
    have h1 := Int.tmod_nonneg r (by omega : (0 : Int) ≤ -l)
    have h2 := Int.tmod_lt_of_pos (-l) h
    omega

/-! ## Claim C1 (Divide rounding) -/

/-- Claim C1 (refuting evaluation): the claim says Divide stores the
quotient rounded toward negative infinity, and that with Modulo it
satisfies `left = (left/right)*right + (left mod right)`.  The `Op::Divide`
arm instead computes rug's truncating `/`: at `left = -7`, `right = 3` it
stores `-2` while the floored quotient is `-3`, and the division identity
fails against the floored-sign modulo the code computes. -/
theorem divide_truncates_at_neg7_3 :
    divideVal (-7) 3 = -2 ∧ Int.fdiv (-7) 3 = -3 ∧
    divideVal (-7) 3 ≠ Int.fdiv (-7) 3 ∧
    moduloVal (-7) 3 = 2 ∧
    (-7 : Int) ≠ divideVal (-7) 3 * 3 + moduloVal (-7) 3 := by
  refine ⟨by decide, by decide, by decide, by decide, by decide⟩

/-! ## Claim C2 (debug levels) -/

/-- Claim C2 (refuting evaluation): the claim says that at debug level 1 a
diagnostic block is emitted exactly on ticks whose instruction cell has the
debug flag set.  The gate on line 82 of lib.rs,
`debug_level > 1 && dbg || debug_level > 0`, is true for every tick once
`debug_level > 0`: at level 1 with an unflagged cell it still fires, as the
concrete one-tick run `dbgDemo` shows.  Levels 0 and 2 behave as claimed. -/
theorem debug_gate_fires_on_unflagged_at_level1 :
    dbg_tick 1 false = true ∧
    dbg_tick 0 false = false ∧ dbg_tick 0 true = false ∧
    dbg_tick 2 false = true ∧ dbg_tick 2 true = true ∧
    ∃ s', stepTick dbgDemo = .cont s' ∧ s'.errOut = 1 := by
  exact ⟨rfl, rfl, rfl, rfl, rfl, _, rfl, rfl⟩

/-! ## Claim C3 (memory motion algebra) -/

/-- Claim C3 counterexample: `move_left` followed by `move_right` does not
return the memory pointer of the initial memory to its edge (it lands on
`(0, -1, E)`), and on an `SE` edge the `mp-back-left` macro flips `rot`. -/
theorem mem_move_left_right_not_inverse :
    Memory.new.move_left.move_right.mp ≠ Memory.new.mp ∧
    memSE.mp_back_left.rot ≠ memSE.rot := by
  refine ⟨by decide, by decide⟩

/-- Claim C3 (amended): for every memory state, `reverse` twice is the
identity; `move_left` followed by the `mp-back-left` macro — not by
`move_right` — returns to the original `(mp, rot)` (and `move_right`
followed by `mp-back-right` does); the back macros preserve `rot` exactly
when the current edge direction is not `SE` (for `mp-back-left`)
respectively not `NE` (for `mp-back-right`). -/
theorem mem_motion_algebra (m : Memory) :
    m.reverse.reverse = m ∧
    m.move_left.mp_back_left = m ∧
    m.move_right.mp_back_right = m ∧
    (m.mp_back_left.rot = m.rot ↔ m.mp.2.2 ≠ MemDir.SE) ∧
    (m.mp_back_right.rot = m.rot ↔ m.mp.2.2 ≠ MemDir.NE) := by
  rcases m with ⟨cells, ⟨q, r, e⟩, rot⟩
  cases e <;> cases rot <;>
    simp [Memory.reverse, Memory.move_left, Memory.move_right,
      Memory.mp_back_left, Memory.mp_back_right,
      Memory.left_index, Memory.right_index]

/-! ## Claim C6 (Modulo semantics) -/

/-- Claim C6: with a non-zero right neighbour, Modulo stores the truncated
remainder shifted by `right` exactly when it is non-zero and the operands'
signs differ; the result lies in `[0, right)` for positive `right` and in
`(right, 0]` for negative `right` (the sign of `right`), and it is a true
remainder: `left` differs from it by a multiple of `right`.  The two
spec instances `7 mod -3 = -2` and `-7 mod 3 = 2` hold. -/
theorem modulo_sign_of_right (left right : Int) (h : right ≠ 0) :
    (∃ k, left = k * right + moduloVal left right) ∧
    (0 < right → 0 ≤ moduloVal left right ∧ moduloVal left right < right) ∧
    (right < 0 → right < moduloVal left right ∧ moduloVal left right ≤ 0) ∧
    moduloVal 7 (-3) = -2 ∧ moduloVal (-7) 3 = 2 := by
  have hid := Int.tmod_add_tdiv left right
  have hval : moduloVal left right =
      if left.tmod right ≠ 0 ∧ decide (left < 0) ≠ decide (right < 0)
      then left.tmod right + right else left.tmod right := rfl
  refine ⟨?_, ?_, ?_, by decide, by decide⟩
  · rw [hval]
    split
    · exact ⟨left.tdiv right - 1, by linarith⟩
    · exact ⟨left.tdiv right, by linarith⟩
  · intro hr
    have hb := tmod_bounds_pos left hr
    have hrd : decide (right < 0) = false := by
      simp
      omega
    rw [hval]
    split
    · rename_i hcond
      rcases hcond with ⟨hne, hsign⟩
      rw [hrd] at hsign
      have hld : left < 0 := by
        by_contra hge
        simp [hge] at hsign
      have := hb.2.2.2 hld
      omega
    · rename_i hcond
      rw [hrd] at hcond
      by_cases hld : left < 0
      · have : left.tmod right = 0 := by
          by_contra hne
          exact hcond ⟨hne, by simp [hld]⟩
        omega
      · have := hb.2.2.1 (by omega)
        omega
  · intro hr
    have hb := tmod_bounds_pos left (by omega : (0:Int) < -right)
    rw [Int.tmod_neg] at hb
    have hrd : decide (right < 0) = true := by
      simp
      omega
    rw [hval]
    split
    · rename_i hcond
      rcases hcond with ⟨hne, hsign⟩
      rw [hrd] at hsign
      have hld : ¬ left < 0 := by
        by_contra hlt
        simp [hlt] at hsign
      have := hb.2.2.1 (by omega)
      omega
    · rename_i hcond
      rw [hrd] at hcond
      by_cases hld : left < 0
      · have := hb.2.2.2 hld
        omega
      · have : left.tmod right = 0 := by
          by_contra hne
          exact hcond ⟨hne, by simp [hld]⟩
        omega

/-- Witness for `modulo_sign_of_right` at `left = -7`, `right = 3`. -/
theorem modulo_sign_of_right_witness :
    (∃ k, (-7 : Int) = k * 3 + moduloVal (-7) 3) ∧
    ((0:Int) < 3 → 0 ≤ moduloVal (-7) 3 ∧ moduloVal (-7) 3 < 3) ∧
    ((3:Int) < 0 → 3 < moduloVal (-7) 3 ∧ moduloVal (-7) 3 ≤ 0) ∧
    moduloVal 7 (-3) = -2 ∧ moduloVal (-7) 3 = 2 :=
  modulo_sign_of_right (-7) 3 (by decide)

/-! ## Claim C4 (IP advancing and wrapping) -/

/-- Claim C4 counterexample: an IP moving East out of the right corner
`(2, 0)` of a side-3 grid with positive current memory value re-enters at
`(-2, 2)` — the `(x_big, y_big, z_big) = (T, T, F)`, positive row — not at
`(q + r, -r) = (2, 0)` as the claim's particular instance asserts. -/
theorem advance_ip_corner_cex :
    advance_ip 3 true { coords := (2, 0), dir := .East } =
      some { coords := (-2, 2), dir := .East } ∧
    ((-2 : Int), (2 : Int)) ≠ ((2 : Int) + 0, -(0 : Int)) := by
  refine ⟨by decide, by decide⟩

/-- Claim C4 (amended): whenever the one-step move of an IP leaves the
side-`s` hexagon (`s ≥ 2`), `advance_ip` leaves the pre-move `(q, r)` in
place and produces exactly the destination given by the §4.5 wrap table as
a function of which cube components are out of range and of the sign of
the current memory value; when `s = 1` advancing never moves the IP; and
the East / right-corner / positive instance lands on `(-q, q + r) =
(-2, 2)` (the `T, T, F, T` row), not on `(q + r, -r)`. -/
theorem advance_ip_wraps_per_table :
    (∀ (size : Nat) (positive : Bool) (q r : Int) (d : Direction),
      2 ≤ size →
      ¬ inBounds size ((q, r) + d.to_vector) →
      advance_ip size positive { coords := (q, r), dir := d } =
        (wrapTableSpec
          (decide (size ≤ ((q, r) + d.to_vector).1.natAbs))
          (decide (size ≤ (-((q, r) + d.to_vector).1 - ((q, r) + d.to_vector).2).natAbs))
          (decide (size ≤ ((q, r) + d.to_vector).2.natAbs))
          positive q r).map fun c => { coords := c, dir := d }) ∧
    (∀ (positive : Bool) (ip : IP), advance_ip 1 positive ip = some ip) ∧
    advance_ip 3 true { coords := (2, 0), dir := .East } =
      some { coords := (-2, 2), dir := .East } := by
  refine ⟨?_, ?_, by decide⟩
  · intro size positive q r d h2 hob
    simp only [inBounds, not_and_or, not_lt] at hob
    rw [advance_ip, if_neg (by omega : ¬ size = 1)]
    dsimp only
    split
    · rename_i hsmall
      simp only [Bool.not_eq_true', Bool.or_eq_false_iff,
        decide_eq_false_iff_not, not_le] at hsmall
      omega
    · clear hob
      split <;> simp only [*, wrapTableSpec] <;> rfl
  · intro positive ip
    rw [advance_ip, if_pos rfl]

/-- Witness for the quantified part of `advance_ip_wraps_per_table`,
instantiated at the side-3 East-corner step. -/
theorem advance_ip_wraps_per_table_witness :
    advance_ip 3 true { coords := ((2 : Int), (0 : Int)), dir := .East } =
      (wrapTableSpec
        (decide (3 ≤ ((((2 : Int), (0 : Int)) : PointAxial) + Direction.East.to_vector).1.natAbs))
        (decide (3 ≤ (-((((2 : Int), (0 : Int)) : PointAxial) + Direction.East.to_vector).1 -
          ((((2 : Int), (0 : Int)) : PointAxial) + Direction.East.to_vector).2).natAbs))
        (decide (3 ≤ ((((2 : Int), (0 : Int)) : PointAxial) + Direction.East.to_vector).2.natAbs))
        true 2 0).map fun c => { coords := c, dir := .East } :=
  advance_ip_wraps_per_table.1 3 true 2 0 .East (by decide) (by decide)

/-! ## Claim C5 (reachable IP positions stay in bounds) -/

theorem advance_ip_preserves_inBounds (size : Nat) (positive : Bool) (ip ip' : IP)
    (h1 : 1 ≤ size) (hin : inBounds size ip.coords)
    (hadv : advance_ip size positive ip = some ip') :
    inBounds size ip'.coords := by
  rcases ip with ⟨⟨q, r⟩, d⟩
  rw [advance_ip] at hadv
  by_cases hsz : size = 1
  · rw [if_pos hsz] at hadv
    simp only [Option.some.injEq] at hadv
    subst hadv
    exact hin
  · rw [if_neg hsz] at hadv
    dsimp only at hadv
    simp only [inBounds] at hin ⊢
    split at hadv
    · rename_i hsmall
      simp only [Option.some.injEq] at hadv
      subst hadv
      simp only [Bool.not_eq_eq_eq_not, Bool.not_true, Bool.or_eq_false_iff,
        decide_eq_false_iff_not, not_le] at hsmall
      exact ⟨hsmall.1.1, hsmall.1.2, hsmall.2⟩
    · split at hadv <;>
        first
        | exact Option.noConfusion hadv
        | (simp only [Option.some.injEq] at hadv
           subst hadv
           dsimp only
           omega)

theorem gridNew_grid_length (size : Nat) : (Grid.new size).grid.length = 2 * size - 1 := by
  simp [Grid.new]

theorem gridNew_row_length (size i : Nat) (h : i < 2 * size - 1) :
    ((Grid.new size).grid.getD i []).length =
      2 * size - 1 - ((size - 1 - i) + (i - (size - 1))) := by
  simp only [Grid.new, List.getD_eq_getElem?_getD, List.getElem?_map,
    List.getElem?_range h, Option.map_some', Option.getD_some, List.length_replicate]
  split <;> omega

theorem length_getD_of_map_length_eq {α : Type} {l1 l2 : List (List α)}
    (h : l1.map List.length = l2.map List.length) (i : Nat) :
    (l1.getD i []).length = (l2.getD i []).length := by
  induction l1 generalizing l2 i with
  | nil =>
    cases l2 with
    | nil => rfl
    | cons b bs => simp at h
  | cons a as ih =>
    cases l2 with
    | nil => simp at h
    | cons b bs =>
      simp only [List.map_cons, List.cons.injEq] at h
      cases i with
      | zero => simpa using h.1
      | succ j => simpa using ih h.2 j

theorem index_in_range_of_inBounds (g : Grid) (size : Nat) (hs : sameShape g size)
    (h1 : 1 ≤ size) (c : PointAxial) (hin : inBounds size c) :
    0 ≤ (g.axial_to_index c).1 ∧ (g.axial_to_index c).1.toNat < g.grid.length ∧
    0 ≤ (g.axial_to_index c).2 ∧
    (g.axial_to_index c).2.toNat < (g.grid.getD (g.axial_to_index c).1.toNat []).length := by
  obtain ⟨hsz, hmap⟩ := hs
  rcases c with ⟨q, r⟩
  have hlen : g.grid.length = 2 * size - 1 := by
    have hc := congrArg List.length hmap
    simpa [gridNew_grid_length] using hc
  simp only [Grid.axial_to_index, hsz] at *
  simp only [inBounds] at hin
  have hrow0 : (0 : Int) ≤ r + (size : Int) - 1 := by omega
  have hrowlt : (r + (size : Int) - 1).toNat < 2 * size - 1 := by omega
  have hrl : (g.grid.getD (r + (size : Int) - 1).toNat []).length =
      2 * size - 1 - ((size - 1 - (r + (size : Int) - 1).toNat) +
        ((r + (size : Int) - 1).toNat - (size - 1))) := by
    rw [length_getD_of_map_length_eq hmap]
    exact gridNew_row_length size _ hrowlt
  refine ⟨by omega, by omega, by omega, by omega⟩

/-- Claim C5: every IP position reachable from the six initial corners by
`advance_ip` steps satisfies `max(|x|, |y|, |z|) < s`, and consequently on
any grid with the hex row profile of side `s` (in particular the parsed
grid) the row/column indices the fetch computes are non-negative and in
range of the allocated rows. -/
theorem reachable_positions_in_bounds (size : Nat) (g : Grid) (c : PointAxial)
    (h1 : 1 ≤ size) (hs : sameShape g size) (hreach : ReachablePos size c) :
    inBounds size c ∧
    0 ≤ (g.axial_to_index c).1 ∧ (g.axial_to_index c).1.toNat < g.grid.length ∧
    0 ≤ (g.axial_to_index c).2 ∧
    (g.axial_to_index c).2.toNat < (g.grid.getD (g.axial_to_index c).1.toNat []).length := by
  have hib : inBounds size c := by
    induction hreach with
    | init i =>
      rcases i with _ | _ | _ | _ | _ | i <;>
        simp only [initIP, inBounds] <;>
        refine ⟨by omega, by omega, by omega⟩
    | step c d positive ip' hr hadv ih =>
      exact advance_ip_preserves_inBounds size positive ⟨c, d⟩ ip' h1 ih hadv
  exact ⟨hib, index_in_range_of_inBounds g size hs h1 c hib⟩

/-- Witness for `reachable_positions_in_bounds`: the first corner of the
side-3 grid. -/
theorem reachable_positions_in_bounds_witness :
    inBounds 3 (initIP 3 0).coords ∧
    0 ≤ ((Grid.new 3).axial_to_index (initIP 3 0).coords).1 ∧
    ((Grid.new 3).axial_to_index (initIP 3 0).coords).1.toNat < (Grid.new 3).grid.length ∧
    0 ≤ ((Grid.new 3).axial_to_index (initIP 3 0).coords).2 ∧
    ((Grid.new 3).axial_to_index (initIP 3 0).coords).2.toNat <
      ((Grid.new 3).grid.getD ((Grid.new 3).axial_to_index (initIP 3 0).coords).1.toNat []).length :=
  reachable_positions_in_bounds 3 (Grid.new 3) (initIP 3 0).coords (by decide)
    ⟨rfl, rfl⟩ (.init 0)

/-! ## Claim C7 (ZeroDivision) -/

theorem dbgStep_mem (s : Hexagony) : (dbgStep s).mem = s.mem := by
  unfold dbgStep
  split <;> rfl

theorem dbgStep_output (s : Hexagony) : (dbgStep s).output = s.output := by
  unfold dbgStep
  split <;> rfl

theorem dbgStep_input (s : Hexagony) : (dbgStep s).input = s.input := by
  unfold dbgStep
  split <;> rfl

theorem finishTick_no_err (h : Hexagony) (n : Nat) (e : Error) (s' : Hexagony) :
    finishTick h n ≠ .err e s' := by
  unfold finishTick
  split <;> simp

/-- Claim C7: at a Divide or Modulo cell, the tick raises ZeroDivision
exactly when the right neighbour is 0; and in that case the run loop stops
at once with that error, with the memory (cells, pointer and chirality),
the output written so far, and the remaining input all unchanged. -/
theorem zero_division_iff (s : Hexagony)
    (hop : (s.grid.get (s.ips s.ip_idx).coords).1 = Op.Divide ∨
           (s.grid.get (s.ips s.ip_idx).coords).1 = Op.Modulo) :
    ((∃ s', stepTick s = .err .ZeroDivisionError s') ↔ s.mem.get_right = 0) ∧
    (s.mem.get_right = 0 → ∀ n : Nat,
      ∃ s', runFuel (n + 1) s = .err .ZeroDivisionError s' ∧
        s'.mem = s.mem ∧ s'.output = s.output ∧ s'.input = s.input) := by
  have herr : s.mem.get_right = 0 → stepTick s = .err .ZeroDivisionError (dbgStep s) := by
    intro hz
    rcases hop with hop | hop <;>
      (simp only [stepTick, hop]
       rw [dbgStep_mem, if_pos hz])
  have hne : s.mem.get_right ≠ 0 → ∀ e s', stepTick s ≠ .err e s' := by
    intro hnz e s' hs'
    rcases hop with hop | hop <;>
      (simp only [stepTick, hop] at hs'
       rw [dbgStep_mem, if_neg hnz] at hs'
       exact finishTick_no_err _ _ _ _ hs')
  refine ⟨⟨?_, ?_⟩, ?_⟩
  · rintro ⟨s', hs'⟩
    by_contra hnz
    exact hne hnz _ _ hs'
  · intro hz
    exact ⟨dbgStep s, herr hz⟩
  · intro hz n
    refine ⟨dbgStep s, ?_, dbgStep_mem s, dbgStep_output s, dbgStep_input s⟩
    simp only [runFuel, herr hz]

/-- Witness for `zero_division_iff`: the one-cell program `:` with empty
memory — the right neighbour reads 0, so the very first tick errors. -/
theorem zero_division_iff_witness :
    ((∃ s', stepTick (Hexagony.init { size := 1, grid := [[(Op.Divide, false)]] } 0 []) =
        .err .ZeroDivisionError s') ↔
      (Hexagony.init { size := 1, grid := [[(Op.Divide, false)]] } 0 []).mem.get_right = 0) ∧
    ((Hexagony.init { size := 1, grid := [[(Op.Divide, false)]] } 0 []).mem.get_right = 0 →
      ∀ n : Nat, ∃ s',
        runFuel (n + 1) (Hexagony.init { size := 1, grid := [[(Op.Divide, false)]] } 0 []) =
          .err .ZeroDivisionError s' ∧
        s'.mem = (Hexagony.init { size := 1, grid := [[(Op.Divide, false)]] } 0 []).mem ∧
        s'.output = (Hexagony.init { size := 1, grid := [[(Op.Divide, false)]] } 0 []).output ∧
        s'.input = (Hexagony.init { size := 1, grid := [[(Op.Divide, false)]] } 0 []).input) :=
  zero_division_iff (Hexagony.init { size := 1, grid := [[(Op.Divide, false)]] } 0 [])
    (Or.inl rfl)

/-! ## Claim C9 (observable behaviour is independent of the debug level) -/

theorem advState_rel {a b : Hexagony} (h : SameCore a b) :
    (advState a = none ∧ advState b = none) ∨
    (∃ a' b', advState a = some a' ∧ advState b = some b' ∧ SameCore a' b') := by
  obtain ⟨cg, cm, ci, cx, ct, cin, cout⟩ := h
  unfold advState
  rw [cg, cm, ci, cx]
  cases advance_ip b.grid.size (decide (0 < b.mem.get)) (b.ips b.ip_idx) with
  | none => exact Or.inl ⟨rfl, rfl⟩
  | some ip' =>
    exact Or.inr ⟨_, _, rfl, rfl, rfl, rfl, rfl, rfl, ct, cin, cout⟩

theorem finishTick_rel {a b : Hexagony} (h : SameCore a b) (n : Nat) :
    TickRes.Rel (finishTick a n) (finishTick b n) := by
  unfold finishTick
  rcases advState_rel h with ⟨h1, h2⟩ | ⟨a', b', h1, h2, hc⟩ <;> rw [h1, h2]
  · exact h
  · exact ⟨hc.1, hc.2.1, hc.2.2.1, rfl, by rw [hc.2.2.2.2.1], hc.2.2.2.2.2.1,
      hc.2.2.2.2.2.2⟩

theorem stepTick_rel {a b : Hexagony} (h : SameCore a b) :
    TickRes.Rel (stepTick a) (stepTick b) := by
  have hcore : SameCore (dbgStep a) (dbgStep b) := by
    obtain ⟨cg, cm, ci, cx, ct, cin, cout⟩ := h
    unfold dbgStep
    split <;> split <;> exact ⟨cg, cm, ci, cx, ct, cin, cout⟩
  obtain ⟨cg, cm, ci, cx, ct, cin, cout⟩ := hcore
  have hfetch : a.grid.get (a.ips a.ip_idx).coords = b.grid.get (b.ips b.ip_idx).coords := by
    rw [h.1, h.2.2.1, h.2.2.2.1]
  simp only [stepTick, hfetch]
  rcases hf : b.grid.get (b.ips b.ip_idx).coords with ⟨op, dbgf⟩
  cases op <;>
    dsimp only <;>
    (try simp only [cg, cm, ci, cx, ct, cin, cout]) <;>
    first
    | (apply finishTick_rel
       exact ⟨cg, cm, ci, cx, ct, cin, cout⟩)
    | (apply finishTick_rel
       exact ⟨rfl, rfl, rfl, rfl, rfl, rfl, rfl⟩)
    | exact ⟨cg, cm, ci, cx, ct, cin, cout⟩
    | (by_cases hz : (dbgStep b).mem.get_right = 0
       · rw [if_pos hz, if_pos hz]
         exact ⟨rfl, cg, cm, ci, cx, ct, cin, cout⟩
       · rw [if_neg hz, if_neg hz]
         apply finishTick_rel
         exact ⟨rfl, rfl, rfl, rfl, rfl, rfl, rfl⟩)
    | (rcases hbi : (dbgStep b).input with _ | ⟨bb, rest⟩ <;>
        simp only [hbi] <;>
        (apply finishTick_rel
         exact ⟨rfl, rfl, rfl, rfl, rfl, rfl, rfl⟩))
    | (rcases advState_rel (⟨cg, cm, ci, cx, ct, cin, cout⟩ :
          SameCore (dbgStep a) (dbgStep b)) with ⟨h1, h2⟩ | ⟨a', b', h1, h2, hc⟩ <;>
        rw [h1, h2]
       · exact ⟨cg, cm, ci, cx, ct, cin, cout⟩
       · dsimp only
         rw [hc.2.2.2.1]
         exact finishTick_rel hc _)

theorem runFuel_obs_rel : ∀ (n : Nat) {a b : Hexagony}, SameCore a b →
    (runFuel n a).obs = (runFuel n b).obs := by
  intro n
  induction n with
  | zero =>
    intro a b h
    simp only [runFuel, RunRes.obs]
    rw [h.2.2.2.2.2.2]
  | succ k ih =>
    intro a b h
    have hrel := stepTick_rel h
    cases ha : stepTick a <;> cases hb : stepTick b <;>
      rw [ha, hb] at hrel <;>
      simp only [TickRes.Rel] at hrel <;>
      first
      | exact hrel.elim
      | (simp only [runFuel, ha, hb, RunRes.obs]
         first
         | exact ih hrel
         | rw [hrel.2.2.2.2.2.2]
         | rw [hrel.1, hrel.2.2.2.2.2.2.2])

/-- Claim C9: the observable behaviour of a run — how it ends, the error
kind if any, and the bytes written to standard output — is a pure function
of the source text, the input bytes, and the fuel bound: it does not
depend on the debug level (the diagnostic channel is separate).  The
interpreter is a Lean function of these arguments, so two runs with the
same arguments are identical by construction. -/
theorem run_pure_function_of_source_and_input (cs : List Char) (input : List Nat)
    (d1 d2 fuel : Nat) :
    (from_str cs).map (fun g => (runFuel fuel (Hexagony.init g d1 input)).obs) =
    (from_str cs).map (fun g => (runFuel fuel (Hexagony.init g d2 input)).obs) := by
  cases from_str cs with
  | error e => rfl
  | ok g =>
    exact congrArg Except.ok (runFuel_obs_rel fuel ⟨rfl, rfl, rfl, rfl, rfl, rfl, rfl⟩)

/-! ## Counting the cells of the hex grid -/

theorem sum_map_range (n : Nat) (f : Nat → Nat) :
    ((List.range n).map f).sum = ∑ i in Finset.range n, f i := by
  induction n with
  | zero => simp
  | succ k ih =>
    rw [List.range_succ, List.map_append, List.sum_append, Finset.sum_range_succ, ih]
    simp

theorem sum_min_self (t : Nat) :
    (∑ i in Finset.range (2 * t + 1), min i (2 * t - i)) = t * t := by
  induction t with
  | zero => simp
  | succ k ih =>
    have h1 : 2 * (k + 1) + 1 = (2 * k + 2) + 1 := by ring
    rw [h1, Finset.sum_range_succ, Finset.sum_range_succ']
    have h2 : min (2 * k + 2) (2 * (k + 1) - (2 * k + 2)) = 0 := by omega
    have h3 : min 0 (2 * (k + 1) - 0) = 0 := by omega
    have h4 : ∀ i ∈ Finset.range (2 * k + 1),
        min (i + 1) (2 * (k + 1) - (i + 1)) = min i (2 * k - i) + 1 := by
      intro i hi
      simp only [Finset.mem_range] at hi
      omega
    rw [Finset.sum_congr rfl h4, Finset.sum_add_distrib, ih, Finset.sum_const,
      Finset.card_range, h2, h3]
    ring

theorem totalCells_gridNew (s : Nat) (h : 1 ≤ s) :
    totalCells (Grid.new s) = 3 * s * (s - 1) + 1 := by
  obtain ⟨t, rfl⟩ : ∃ t, s = t + 1 := ⟨s - 1, by omega⟩
  unfold totalCells Grid.new
  have h1 : 2 * (t + 1) - 1 = 2 * t + 1 := by omega
  rw [h1, List.map_map, sum_map_range]
  have h2 : ∀ i ∈ Finset.range (2 * t + 1),
      (List.length ∘ fun i => List.replicate
          (2 * t + 1 - if t + 1 - 1 > i then t + 1 - 1 - i else i - (t + 1 - 1))
          (Op.Nop, false)) i = (t + 1) + min i (2 * t - i) := by
    intro i hi
    simp only [Finset.mem_range] at hi
    simp only [Function.comp_apply, List.length_replicate]
    split <;> omega
  rw [Finset.sum_congr rfl h2, Finset.sum_add_distrib, sum_min_self,
    Finset.sum_const, Finset.card_range, smul_eq_mul]
  have h3 : t + 1 - 1 = t := rfl
  rw [h3]
  ring

/-! ## The chosen side length -/

theorem chooseSize_spec (n : Nat) :
    1 ≤ chooseSize n ∧ n ≤ 3 * chooseSize n * (chooseSize n - 1) + 1 := by
  have hex : ∃ k, 1 ≤ k ∧ n ≤ 3 * k * (k - 1) + 1 :=
    ⟨n + 1, Nat.le_add_left 1 n, by rw [Nat.add_sub_cancel]; nlinarith⟩
  exact Nat.find_spec hex

theorem chooseSize_min (n k : Nat) (h1 : 1 ≤ k) (h2 : n ≤ 3 * k * (k - 1) + 1) :
    chooseSize n ≤ k := by
  unfold chooseSize
  exact Nat.find_le ⟨h1, h2⟩

theorem chooseSize_cells (s : Nat) (h : 1 ≤ s) :
    chooseSize (3 * s * (s - 1) + 1) = s := by
  have hspec := chooseSize_spec (3 * s * (s - 1) + 1)
  have hle := chooseSize_min (3 * s * (s - 1) + 1) s h (le_refl _)
  rcases Nat.lt_or_ge (chooseSize (3 * s * (s - 1) + 1)) s with hlt | hge
  · exfalso
    obtain ⟨c1, hc1⟩ : ∃ c1, chooseSize (3 * s * (s - 1) + 1) = c1 + 1 :=
      ⟨chooseSize (3 * s * (s - 1) + 1) - 1, by omega⟩
    obtain ⟨s1, hs1⟩ : ∃ s1, s = s1 + 1 := ⟨s - 1, by omega⟩
    rw [hc1, hs1] at hspec hlt
    have hc1s1 : c1 < s1 := by omega
    have hmono : 3 * (c1 + 1) * c1 < 3 * (s1 + 1) * s1 := by nlinarith
    simp only [Nat.add_sub_cancel] at hspec
    omega
  · omega

/-! ## Writing cells -/

theorem list_set_of_getElem? {α : Type} (l : List α) (i : Nat) (a : α)
    (h : l[i]? = some a) : l.set i a = l := by
  induction l generalizing i with
  | nil => simp at h
  | cons x xs ih =>
    cases i with
    | zero =>
      simp only [List.getElem?_cons_zero, Option.some.injEq] at h
      rw [List.set_cons_zero, h]
    | succ j =>
      simp only [List.getElem?_cons_succ] at h
      rw [List.set_cons_succ, ih j h]

theorem list_set_of_all {α : Type} (l : List α) (i : Nat) (a : α)
    (h : ∀ x ∈ l, x = a) : l.set i a = l := by
  induction l generalizing i with
  | nil => simp
  | cons x xs ih =>
    cases i with
    | zero =>
      rw [List.set_cons_zero, h x (List.mem_cons_self x xs)]
    | succ j =>
      rw [List.set_cons_succ, ih j fun y hy => h y (List.mem_cons_of_mem x hy)]

theorem setCell_some_iff {g : Grid} {row col : Nat} {v : Op × Bool} {g' : Grid} :
    setCell g row col v = some g' ↔
      row < g.grid.length ∧ col < (g.grid.getD row []).length ∧
      g' = { g with grid := g.grid.set row ((g.grid.getD row []).set col v) } := by
  unfold setCell
  cases hrow : g.grid[row]? with
  | none =>
    have hge : g.grid.length ≤ row := by
      by_contra hlt
      rw [List.getElem?_eq_getElem (by omega)] at hrow
      exact Option.noConfusion hrow
    constructor
    · intro h
      exact Option.noConfusion h
    · rintro ⟨h1, -, -⟩
      omega
  | some line =>
    have hlt : row < g.grid.length := by
      by_contra hge
      rw [List.getElem?_eq_none (by omega)] at hrow
      exact Option.noConfusion hrow
    have hline : g.grid.getD row [] = line := by
      rw [List.getD_eq_getElem?_getD, hrow]
      rfl
    dsimp only
    rw [hline]
    by_cases hcol : col < line.length
    · rw [if_pos hcol]
      simp only [Option.some.injEq]
      constructor
      · intro h
        exact ⟨hlt, hcol, h.symm⟩
      · intro h
        exact h.2.2.symm
    · rw [if_neg hcol]
      constructor
      · intro h
        exact Option.noConfusion h
      · intro h
        exact absurd h.2.1 hcol

theorem setCell_shape {g g' : Grid} {row col : Nat} {v : Op × Bool}
    (h : setCell g row col v = some g') :
    g'.grid.map List.length = g.grid.map List.length := by
  obtain ⟨h1, h2, rfl⟩ := setCell_some_iff.mp h
  dsimp only
  rw [List.map_set, List.length_set]
  apply list_set_of_getElem?
  rw [List.getElem?_map, List.getElem?_eq_getElem h1]
  rw [List.getD_eq_getElem?_getD, List.getElem?_eq_getElem h1]
  rfl

theorem setCell_size {g g' : Grid} {row col : Nat} {v : Op × Bool}
    (h : setCell g row col v = some g') : g'.size = g.size := by
  obtain ⟨-, -, rfl⟩ := setCell_some_iff.mp h
  rfl

theorem grid_length_of_map_length_eq {g g' : Grid}
    (h : g'.grid.map List.length = g.grid.map List.length) :
    g'.grid.length = g.grid.length := by
  have hc := congrArg List.length h
  simpa using hc

theorem totalCells_of_map_length_eq {g g' : Grid}
    (h : g'.grid.map List.length = g.grid.map List.length) :
    totalCells g' = totalCells g := by
  unfold totalCells
  rw [h]

theorem cellsBefore_of_map_length_eq {g g' : Grid}
    (h : g'.grid.map List.length = g.grid.map List.length) (row col : Nat) :
    cellsBefore g' row col = cellsBefore g row col := by
  unfold cellsBefore
  rw [List.map_take, List.map_take, h]

theorem rows_nonempty_of_map_length_eq {g g' : Grid}
    (hshape : g'.grid.map List.length = g.grid.map List.length)
    (h : ∀ l ∈ g.grid, l ≠ []) : ∀ l ∈ g'.grid, l ≠ [] := by
  intro l hl hnil
  obtain ⟨i, hi, hget⟩ := List.getElem_of_mem hl
  have h1 : (g'.grid.map List.length)[i]? = some 0 := by
    rw [List.getElem?_map, List.getElem?_eq_getElem hi, hget, hnil]
    rfl
  rw [hshape, List.getElem?_map] at h1
  cases hg : g.grid[i]? with
  | none => rw [hg] at h1; exact Option.noConfusion h1
  | some lg =>
    rw [hg] at h1
    simp only [Option.map_some', Option.some.injEq] at h1
    obtain ⟨hlen, rfl⟩ := List.getElem?_eq_some.mp hg
    have hmem : g.grid[i] ∈ g.grid := List.getElem_mem hlen
    exact h _ hmem (List.eq_nil_of_length_eq_zero h1)

theorem row_length_pos (g : Grid) (hne : ∀ l ∈ g.grid, l ≠ []) (i : Nat)
    (hi : i < g.grid.length) : 0 < (g.grid.getD i []).length := by
  have hmem : g.grid[i] ∈ g.grid := List.getElem_mem hi
  have := hne _ hmem
  rw [List.getD_eq_getElem?_getD, List.getElem?_eq_getElem hi]
  simpa [List.length_pos] using this

theorem cellsBefore_end (g : Grid) : cellsBefore g g.grid.length 0 = totalCells g := by
  unfold cellsBefore totalCells
  rw [List.take_length]
  omega

theorem cellsBefore_succ_row (g : Grid) (row : Nat) (h : row < g.grid.length) :
    cellsBefore g (row + 1) 0 = cellsBefore g row 0 + (g.grid.getD row []).length := by
  unfold cellsBefore
  rw [List.take_succ, List.map_append, List.sum_append, List.getElem?_eq_getElem h]
  rw [List.getD_eq_getElem?_getD, List.getElem?_eq_getElem h]
  simp

theorem srcSize_cons (c : Char) (cs : List Char) :
    srcSize (c :: cs) = (if isOpChar c then 1 else 0) + srcSize cs := by
  unfold srcSize
  rw [List.filter_cons]
  split <;> simp <;> omega

theorem writeInv_valid {g : Grid} {row col n : Nat} (hinv : writeInv g row col (n + 1)) :
    row < g.grid.length ∧ col < (g.grid.getD row []).length := by
  obtain ⟨hpos, hroom, hne⟩ := hinv
  rcases hpos with h | ⟨he, hc0⟩
  · exact h
  · exfalso
    have hend := cellsBefore_end g
    subst he
    subst hc0
    omega

theorem writeInv_step {g g' : Grid} {row col n : Nat} {v : Op × Bool}
    (hinv : writeInv g row col (n + 1)) (hset : setCell g row col v = some g') :
    (col < (g'.grid.getD row []).length - 1 → writeInv g' row (col + 1) n) ∧
    (¬ col < (g'.grid.getD row []).length - 1 → writeInv g' (row + 1) 0 n) := by
  obtain ⟨hval1, hval2⟩ := writeInv_valid hinv
  obtain ⟨hpos, hroom, hne⟩ := hinv
  have hshape := setCell_shape hset
  have hlen := grid_length_of_map_length_eq hshape
  have htot := totalCells_of_map_length_eq hshape
  have hrowl := length_getD_of_map_length_eq hshape row
  have hcb := cellsBefore_of_map_length_eq hshape
  have hne' := rows_nonempty_of_map_length_eq hshape hne
  constructor
  · intro hlt
    refine ⟨Or.inl ⟨by omega, by omega⟩, ?_, hne'⟩
    have h1 : cellsBefore g' row (col + 1) = cellsBefore g row col + 1 := by
      rw [hcb]
      unfold cellsBefore
      omega
    omega
  · intro hge
    have h1 : cellsBefore g' (row + 1) 0 = cellsBefore g row col + 1 := by
      rw [hcb, cellsBefore_succ_row g row hval1]
      unfold cellsBefore
      omega
    by_cases hrend : row + 1 < g.grid.length
    · refine ⟨Or.inl ⟨by omega, row_length_pos g' hne' (row + 1) (by omega)⟩, ?_, hne'⟩
      omega
    · refine ⟨Or.inr ⟨by omega, rfl⟩, ?_, hne'⟩
      omega

theorem writeLoop_no_oob : ∀ (cs : List Char) (g : Grid) (row col : Nat) (dbg : Bool),
    writeInv g row col (srcSize cs) →
    writeLoop cs g row col dbg ≠ .error .outOfBounds := by
  intro cs
  induction cs with
  | nil =>
    intro g row col dbg _ hbad
    simp [writeLoop] at hbad
  | cons c cs ih =>
    intro g row col dbg hinv
    unfold writeLoop
    by_cases hws : isRustWhitespace c = true
    · rw [if_pos hws]
      apply ih
      have hs : srcSize (c :: cs) = srcSize cs := by
        rw [srcSize_cons]
        simp [isOpChar, hws]
      rwa [hs] at hinv
    · rw [if_neg hws]
      by_cases hbt : c = Char.ofNat 96
      · rw [if_pos hbt]
        apply ih
        have hs : srcSize (c :: cs) = srcSize cs := by
          rw [srcSize_cons]
          simp [isOpChar, hbt]
        rwa [hs] at hinv
      · rw [if_neg hbt]
        cases hdec : decodeOp c with
        | none => simp
        | some op =>
          dsimp only
          have hop : isOpChar c = true := by
            simp [isOpChar, hws, hbt]
          have hs : srcSize (c :: cs) = srcSize cs + 1 := by
            rw [srcSize_cons]
            simp [hop]
            omega
          rw [hs] at hinv
          obtain ⟨hval1, hval2⟩ := writeInv_valid hinv
          have hset : setCell g row col (op, dbg) =
              some { g with grid := g.grid.set row ((g.grid.getD row []).set col (op, dbg)) } :=
            setCell_some_iff.mpr ⟨hval1, hval2, rfl⟩
          rw [hset]
          dsimp only
          have hstep := writeInv_step hinv hset
          by_cases hlast : col <
              (({ g with grid := g.grid.set row ((g.grid.getD row []).set col (op, dbg)) } :
                Grid).grid.getD row []).length - 1
          · rw [if_pos hlast]
            exact ih _ _ _ _ (hstep.1 hlast)
          · rw [if_neg hlast]
            exact ih _ _ _ _ (hstep.2 hlast)

theorem gridNew_rows_nonempty (s : Nat) (h : 1 ≤ s) :
    ∀ l ∈ (Grid.new s).grid, l ≠ [] := by
  intro l hl
  simp only [Grid.new, List.mem_map, List.mem_range] at hl
  obtain ⟨i, hi, rfl⟩ := hl
  intro hnil
  have hlen := congrArg List.length hnil
  simp only [List.length_replicate, List.length_nil] at hlen
  split at hlen <;> omega

theorem writeInv_initial (cs : List Char) :
    writeInv (Grid.new (chooseSize (srcSize cs))) 0 0 (srcSize cs) := by
  have hspec := chooseSize_spec (srcSize cs)
  have h1 : 1 ≤ chooseSize (srcSize cs) := hspec.1
  refine ⟨Or.inl ⟨?_, ?_⟩, ?_, gridNew_rows_nonempty _ h1⟩
  · rw [gridNew_grid_length]
    omega
  · have hr := gridNew_row_length (chooseSize (srcSize cs)) 0 (by omega)
    omega
  · have htot := totalCells_gridNew _ h1
    have hcb : cellsBefore (Grid.new (chooseSize (srcSize cs))) 0 0 = 0 := by
      unfold cellsBefore
      simp
    omega

/-- Claim C10: for every source string, the chosen side `s` gives the grid
room for every counted character (`N ≤ 3s(s-1)+1`), and the parser's write
loop never indexes outside the allocated hex grid: the out-of-bounds
outcome (the embedding of the `grid.grid[row][col]` panic) is impossible,
for any input. -/
theorem parser_never_out_of_bounds (cs : List Char) :
    srcSize cs ≤ 3 * chooseSize (srcSize cs) * (chooseSize (srcSize cs) - 1) + 1 ∧
    from_str cs ≠ .error .outOfBounds := by
  refine ⟨(chooseSize_spec (srcSize cs)).2, ?_⟩
  unfold from_str
  exact writeLoop_no_oob cs _ 0 0 false (writeInv_initial cs)

/-! ## The empty template and its round trip -/

theorem allNop_gridNew (s : Nat) : allNop (Grid.new s) := by
  intro l hl p hp
  simp only [Grid.new, List.mem_map, List.mem_range] at hl
  obtain ⟨i, hi, rfl⟩ := hl
  exact List.eq_of_mem_replicate hp

theorem renderLine_template (size : Nat) (line : List (Op × Bool))
    (hall : ∀ p ∈ line, p = (Op.Nop, false)) :
    renderLine size line =
      List.replicate (2 * size - 1 - line.length) ' ' ++
        (List.replicate line.length ([' ', '.'] : List Char)).flatten ++ [Char.ofNat 10] := by
  unfold renderLine
  have hmap : line.map (fun c => [if c.2 then Char.ofNat 96 else ' ', opChar c.1]) =
      List.replicate line.length ([' ', '.'] : List Char) := by
    apply List.eq_replicate_iff.mpr
    constructor
    · simp
    · intro b hb
      rw [List.mem_map] at hb
      obtain ⟨cell, hcell, rfl⟩ := hb
      rw [hall cell hcell]
      decide
  rw [hmap]

theorem srcSize_append (a b : List Char) : srcSize (a ++ b) = srcSize a + srcSize b := by
  unfold srcSize
  rw [List.filter_append, List.length_append]

theorem srcSize_replicate_space (n : Nat) : srcSize (List.replicate n ' ') = 0 := by
  induction n with
  | zero => rfl
  | succ m ihm =>
    rw [List.replicate_succ, srcSize_cons, ihm]
    decide

theorem srcSize_renderLine (size : Nat) (line : List (Op × Bool))
    (hall : ∀ p ∈ line, p = (Op.Nop, false)) :
    srcSize (renderLine size line) = line.length := by
  rw [renderLine_template size line hall, srcSize_append, srcSize_append,
    srcSize_replicate_space]
  have h2 : ∀ n, srcSize ((List.replicate n ([' ', '.'] : List Char)).flatten) = n := by
    intro n
    induction n with
    | zero => rfl
    | succ m ihm =>
      rw [List.replicate_succ, List.flatten_cons, srcSize_append, ihm]
      have h1 : srcSize ([' ', '.'] : List Char) = 1 := by decide
      omega
  rw [h2]
  have h3 : srcSize [Char.ofNat 10] = 0 := by decide
  omega

theorem renderGrid_chars (g : Grid) (hall : allNop g) :
    ∀ c ∈ renderGrid g, c = ' ' ∨ c = Char.ofNat 10 ∨ c = '.' := by
  intro c hc
  unfold renderGrid at hc
  rw [List.mem_flatten] at hc
  obtain ⟨cl, hcl, hcin⟩ := hc
  rw [List.mem_map] at hcl
  obtain ⟨line, hline, rfl⟩ := hcl
  rw [renderLine_template g.size line (hall line hline)] at hcin
  simp only [List.mem_append] at hcin
  rcases hcin with (h | h) | h
  · exact Or.inl (List.eq_of_mem_replicate h)
  · rw [List.mem_flatten] at h
    obtain ⟨l2, hl2, hcin2⟩ := h
    have hl2e := List.eq_of_mem_replicate hl2
    subst hl2e
    simp only [List.mem_cons, List.not_mem_nil, or_false] at hcin2
    rcases hcin2 with h2 | h2
    · exact Or.inl h2
    · exact Or.inr (Or.inr h2)
  · simp only [List.mem_singleton] at h
    exact Or.inr (Or.inl h)

theorem srcSize_renderGrid (g : Grid) (hall : allNop g) :
    srcSize (renderGrid g) = totalCells g := by
  unfold renderGrid totalCells
  have hgen : ∀ (rows : List (List (Op × Bool))),
      (∀ l ∈ rows, ∀ p ∈ l, p = (Op.Nop, false)) →
      srcSize ((rows.map (renderLine g.size)).flatten) = (rows.map List.length).sum := by
    intro rows hrows
    induction rows with
    | nil => rfl
    | cons r rs ihr =>
      rw [List.map_cons, List.flatten_cons, srcSize_append, List.map_cons, List.sum_cons,
        srcSize_renderLine _ r (hrows r (by simp)),
        ihr fun l hl => hrows l (List.mem_cons_of_mem r hl)]
  exact hgen g.grid hall

theorem writeLoop_template : ∀ (cs : List Char) (g : Grid) (row col : Nat),
    (∀ c ∈ cs, c = ' ' ∨ c = Char.ofNat 10 ∨ c = '.') →
    allNop g →
    writeInv g row col (srcSize cs) →
    writeLoop cs g row col false = .ok g := by
  intro cs
  induction cs with
  | nil => intro g row col _ _ _; rfl
  | cons c cs ih =>
    intro g row col hchars hall hinv
    have hcrest : ∀ x ∈ cs, x = ' ' ∨ x = Char.ofNat 10 ∨ x = '.' :=
      fun x hx => hchars x (List.mem_cons_of_mem c hx)
    unfold writeLoop
    rcases hchars c (List.mem_cons_self c cs) with rfl | rfl | rfl
    · rw [if_pos (by decide)]
      apply ih _ _ _ hcrest hall
      have hs : srcSize (' ' :: cs) = srcSize cs := by
        rw [srcSize_cons]
        have h0 : isOpChar ' ' = false := by decide
        simp [h0]
      rwa [hs] at hinv
    · rw [if_pos (by decide)]
      apply ih _ _ _ hcrest hall
      have hs : srcSize (Char.ofNat 10 :: cs) = srcSize cs := by
        rw [srcSize_cons]
        have h0 : isOpChar (Char.ofNat 10) = false := by decide
        simp [h0]
      rwa [hs] at hinv
    · rw [if_neg (by decide), if_neg (by decide)]
      have hdec : decodeOp '.' = some Op.Nop := rfl
      rw [hdec]
      dsimp only
      have hs : srcSize ('.' :: cs) = srcSize cs + 1 := by
        rw [srcSize_cons]
        have h0 : isOpChar '.' = true := by decide
        simp [h0]
        omega
      rw [hs] at hinv
      obtain ⟨hval1, hval2⟩ := writeInv_valid hinv
      have hline : g.grid[row]? = some (g.grid.getD row []) := by
        rw [List.getElem?_eq_getElem hval1, List.getD_eq_getElem?_getD,
          List.getElem?_eq_getElem hval1]
        rfl
      have hmem : g.grid.getD row [] ∈ g.grid := by
        obtain ⟨hl, he⟩ := List.getElem?_eq_some.mp hline
        rw [← he]
        exact List.getElem_mem hl
      have hlset : (g.grid.getD row []).set col (Op.Nop, false) = g.grid.getD row [] :=
        list_set_of_all _ _ _ fun x hx => hall _ hmem x hx
      have hset : setCell g row col (Op.Nop, false) = some g := by
        rw [setCell_some_iff]
        refine ⟨hval1, hval2, ?_⟩
        rw [hlset, list_set_of_getElem? _ _ _ hline]
      rw [hset]
      dsimp only
      have hstep := writeInv_step hinv hset
      by_cases hlast : col < (g.grid.getD row []).length - 1
      · rw [if_pos hlast]
        exact ih _ _ _ hcrest hall (hstep.1 hlast)
      · rw [if_neg hlast]
        exact ih _ _ _ hcrest hall (hstep.2 hlast)

theorem from_str_template (s : Nat) (h : 1 ≤ s) :
    from_str (renderGrid (Grid.new s)) = .ok (Grid.new s) := by
  unfold from_str
  have hsz : srcSize (renderGrid (Grid.new s)) = 3 * s * (s - 1) + 1 := by
    rw [srcSize_renderGrid _ (allNop_gridNew s), totalCells_gridNew s h]
  have hinv := writeInv_initial (renderGrid (Grid.new s))
  rw [hsz, chooseSize_cells s h] at hinv ⊢
  exact writeLoop_template _ _ 0 0 (renderGrid_chars _ (allNop_gridNew s))
    (allNop_gridNew s) (by rwa [hsz])

/-- Claim C8: parsing the rendered empty template of side `s ≥ 1` gives
back exactly the empty grid of side `s`, so re-rendering reproduces the
same text; the text itself is row by row `2s-1-L` padding spaces, then
each cell as a space followed by a dot, then a newline; and side 0 renders
as the empty string. -/
theorem template_round_trip (s : Nat) (h : 1 ≤ s) :
    (from_str (source_template s)).map renderGrid = .ok (source_template s) ∧
    from_str (source_template s) = .ok (Grid.new s) ∧
    source_template s =
      ((Grid.new s).grid.map fun line =>
        List.replicate (2 * s - 1 - line.length) ' ' ++
          (List.replicate line.length ([' ', '.'] : List Char)).flatten ++
          [Char.ofNat 10]).flatten ∧
    source_template 0 = [] := by
  obtain ⟨t, rfl⟩ : ∃ t, s = t + 1 := ⟨s - 1, by omega⟩
  have hst : source_template (t + 1) = renderGrid (Grid.new (t + 1)) := rfl
  have hfs := from_str_template (t + 1) (by omega)
  refine ⟨?_, ?_, ?_, rfl⟩
  · rw [hst, hfs]
    rfl
  · rw [hst, hfs]
  · rw [hst]
    unfold renderGrid
    apply congrArg List.flatten
    apply List.map_congr_left
    intro line hline
    exact renderLine_template (t + 1) line (allNop_gridNew (t + 1) line hline)

/-- Witness for `template_round_trip` at side 3. -/
theorem template_round_trip_witness :
    (from_str (source_template 3)).map renderGrid = .ok (source_template 3) ∧
    from_str (source_template 3) = .ok (Grid.new 3) ∧
    source_template 3 =
      ((Grid.new 3).grid.map fun line =>
        List.replicate (2 * 3 - 1 - line.length) ' ' ++
          (List.replicate line.length ([' ', '.'] : List Char)).flatten ++
          [Char.ofNat 10]).flatten ∧
    source_template 0 = [] :=
  template_round_trip 3 (by decide)
